import Mathlib

/-!
Shallow embedding of the premarket-suggester watchlist pipeline
(`shared_layer/models.py`, `shared_layer/services.py`,
`shared_layer/utils.py`, `shared_layer/scrapers/zerodha_scraper.py`).

Floats are modelled as rationals, datetimes as integers, and Python
exceptions / `None` returns as `Option`.  Python dicts that rely on
insertion-order iteration are modelled as association lists that append
new keys at the end.
-/

namespace Premarket

/-- Trading direction bias (`models.Direction`); pydantic stores the enum
value strings, and every stored value is one of the three members. -/
inductive Direction where
  | BULLISH
  | BEARISH
  | NEUTRAL
deriving DecidableEq

/-- Watchlist priority levels (`models.Priority`). -/
inductive Priority where
  | HIGH
  | MEDIUM
  | LOW
deriving DecidableEq

/-- `Direction(value)` construction from a raw string: succeeds exactly on
the three enum value strings, otherwise raises (modelled as `none`). -/
def Direction.ofString : String → Option Direction
  | "BULLISH" => some Direction.BULLISH
  | "BEARISH" => some Direction.BEARISH
  | "NEUTRAL" => some Direction.NEUTRAL
  | _ => none

/-- The five recognized `EventType` enum value strings (`models.EventType`). -/
def validEventTypes : List String :=
  ["Earnings", "Order", "Regulatory", "Macro", "Other"]

/-- The three recognized `Direction` enum value strings. -/
def validDirections : List String :=
  ["BULLISH", "BEARISH", "NEUTRAL"]

/-- Constants from `shared_layer/constants.py`. -/
def BIAS_SCORE_HIGH_THRESHOLD : Rat := 5 / 2

/-- `BIAS_SCORE_MEDIUM_THRESHOLD = 1.5`. -/
def BIAS_SCORE_MEDIUM_THRESHOLD : Rat := 3 / 2

/-- `MIN_NEWS_COUNT_FOR_WATCHLIST = 1`. -/
def MIN_NEWS_COUNT_FOR_WATCHLIST : Nat := 1

/-- `MAX_WATCHLIST_SIZE = 10`. -/
def MAX_WATCHLIST_SIZE : Nat := 10

/-- `utils.determine_priority`: High if the bias score is at least 2.5,
Medium if at least 1.5, otherwise Low. -/
def determine_priority (bias_score : Rat) : Priority :=
  if bias_score ≥ BIAS_SCORE_HIGH_THRESHOLD then Priority.HIGH
  else if bias_score ≥ BIAS_SCORE_MEDIUM_THRESHOLD then Priority.MEDIUM
  else Priority.LOW

/-- `models.NewsItem` (the fields the pipeline reads). -/
structure NewsItem where
  id : String
  source : String
  title : String
  content : String
  published_at : Int
  stock_symbol : Option String
  url : String
deriving DecidableEq

/-- `models.AnalysisResult` (the fields the pipeline reads; `event_type`
is kept as its enum value string, as pydantic does with
`use_enum_values = True`). -/
structure AnalysisResult where
  news_id : String
  stock_symbol : String
  event_type : String
  direction : Direction
  impact_strength : Int
  confidence : Rat
  rationale : String
  bias_score : Rat
  news_published_at : Int
deriving DecidableEq

/-- `models.WatchlistItem` (the fields the pipeline writes). -/
structure WatchlistItem where
  stock_symbol : String
  direction : Direction
  priority : Priority
  bias_score : Rat
  reason : String
  news_count : Nat
  latest_news_datetime : Int
  date : String
deriving DecidableEq

/-- The raw adapter payload handed to `LLMAnalysisResponse(**llm_response)`:
plain strings for the enum-like fields, numbers for strength/confidence. -/
structure LLMPayload where
  event_type : String
  direction : String
  impact_strength : Int
  confidence : Rat
  rationale : String
deriving DecidableEq

/-- `models.LLMAnalysisResponse` after validation. -/
structure LLMAnalysisResponse where
  event_type : String
  direction : String
  impact_strength : Int
  confidence : Rat
  rationale : String
deriving DecidableEq

/-- The `validate_event_type` validator: unrecognized categories are
replaced by `Other`. -/
def validate_event_type (v : String) : String :=
  if v ∈ validEventTypes then v else "Other"

/-- The `validate_direction` validator: the value is upper-cased and an
unrecognized direction is replaced by `NEUTRAL`. -/
def validate_direction (v : String) : String :=
  let vUpper := v.toUpper
  if vUpper ∈ validDirections then vUpper else "NEUTRAL"

/-- `LLMAnalysisResponse(**payload)`: the pydantic field constraints on
`impact_strength` (1..5) and `confidence` (0..1) reject the payload
(an exception, modelled as `none`), while the two enum-like string fields
are normalized by their validators instead of being rejected. -/
def LLMAnalysisResponse.validate (p : LLMPayload) : Option LLMAnalysisResponse :=
  if 1 ≤ p.impact_strength ∧ p.impact_strength ≤ 5 ∧
      0 ≤ p.confidence ∧ p.confidence ≤ 1 then
    some { event_type := validate_event_type p.event_type
           direction := validate_direction p.direction
           impact_strength := p.impact_strength
           confidence := p.confidence
           rationale := p.rationale }
  else none

/-- `AnalysisResult(...)` construction in the service: pydantic validates
the field constraints (symbol length, strength range, confidence range,
rationale length, bias range) and upper-cases the stock symbol; a
constraint violation raises, modelled as `none`. -/
def mkAnalysisResult (news_id sym event_type : String) (direction : Direction)
    (impact_strength : Int) (confidence : Rat) (rationale : String)
    (bias_score : Rat) (news_published_at : Int) : Option AnalysisResult :=
  if sym.length ≤ 20 ∧ 1 ≤ impact_strength ∧ impact_strength ≤ 5 ∧
      0 ≤ confidence ∧ confidence ≤ 1 ∧
      1 ≤ rationale.length ∧ rationale.length ≤ 200 ∧
      0 ≤ bias_score ∧ bias_score ≤ 5 then
    some { news_id := news_id
           stock_symbol := sym.toUpper
           event_type := event_type
           direction := direction
           impact_strength := impact_strength
           confidence := confidence
           rationale := rationale
           bias_score := bias_score
           news_published_at := news_published_at }
  else none

/-- `WatchlistGeneratorService._analyze_single_item`: the adapter response
(`none` models a raised exception or transport failure) is validated as an
`LLMAnalysisResponse`; on success an `AnalysisResult` is built with
`bias_score = impact_strength * confidence`.  Any failure along the way is
caught and the function returns `None`. -/
def analyze_single_item (news_item : NewsItem)
    (llm_response : Option LLMPayload) : Option AnalysisResult :=
  news_item.stock_symbol.bind fun sym =>
    llm_response.bind fun payload =>
      (LLMAnalysisResponse.validate payload).bind fun vr =>
        if vr.event_type ∈ validEventTypes then
          (Direction.ofString vr.direction).bind fun dir =>
            mkAnalysisResult news_item.id sym vr.event_type dir
              vr.impact_strength vr.confidence vr.rationale
              ((vr.impact_strength : Rat) * vr.confidence) news_item.published_at
        else none

/-- `extract_symbols_parallel`: each item keeps its existing symbol, or gets
the first extracted symbol; items for which extraction yields nothing (or
raises, which is caught) are dropped from the output. -/
def extract_symbols_parallel (extract : NewsItem → Option String)
    (news_items : List NewsItem) : List NewsItem :=
  news_items.filterMap fun it =>
    match it.stock_symbol with
    | some _ => some it
    | none =>
      match extract it with
      | some s => some { it with stock_symbol := some s }
      | none => none

/-- The result-collection loop of `analyze_all_news` (step 2): each item's
analysis outcome is collected if present, otherwise counted as an error;
returns the collected analyses together with the error count. -/
def collectAnalyses (llm : NewsItem → Option LLMPayload) :
    List NewsItem → List AnalysisResult × Nat
  | [] => ([], 0)
  | item :: rest =>
    let acc := collectAnalyses llm rest
    match analyze_single_item item (llm item) with
    | some a => (a :: acc.1, acc.2)
    | none => (acc.1, acc.2 + 1)

/-- `WatchlistGeneratorService.analyze_all_news`: returns `[]` for an empty
input, extracts symbols, returns `[]` when nothing has a symbol, and
otherwise collects the per-item analysis outcomes. -/
def analyze_all_news (extract : NewsItem → Option String)
    (llm : NewsItem → Option LLMPayload)
    (news_items : List NewsItem) : List AnalysisResult :=
  if news_items.isEmpty then []
  else
    let items_with_symbols := extract_symbols_parallel extract news_items
    if items_with_symbols.isEmpty then []
    else (collectAnalyses llm items_with_symbols).1

/-- The per-symbol accumulator of `generate_watchlist` (`stock_aggregates`
values).  `directions` is an insertion-ordered tally, modelling the
Python dict's insertion-order iteration. -/
structure StockAggregate where
  analyses : List AnalysisResult
  total_bias_score : Rat
  directions : List (Direction × Nat)
  latest_news_datetime : Option Int
deriving DecidableEq

/-- Increment a direction's count in the insertion-ordered tally, appending
a new key at the end (Python dict insertion order). -/
def bumpDirection : List (Direction × Nat) → Direction → List (Direction × Nat)
  | [], d => [(d, 1)]
  | (d', c) :: rest, d =>
    if d' = d then (d', c + 1) :: rest else (d', c) :: bumpDirection rest d

/-- Fold one analysis into a symbol's aggregate (the body of the grouping
loop in `generate_watchlist`). -/
def updateAggregate (agg : StockAggregate) (a : AnalysisResult) : StockAggregate :=
  { analyses := agg.analyses ++ [a]
    total_bias_score := agg.total_bias_score + a.bias_score
    directions := bumpDirection agg.directions a.direction
    latest_news_datetime :=
      match agg.latest_news_datetime with
      | none => some a.news_published_at
      | some t => if a.news_published_at > t then some a.news_published_at else some t }

/-- The empty aggregate created by the `defaultdict` factory. -/
def emptyAggregate : StockAggregate :=
  { analyses := [], total_bias_score := 0, directions := [], latest_news_datetime := none }

/-- Upsert one analysis into the insertion-ordered symbol map, creating the
aggregate on first sight of a symbol (defaultdict semantics). -/
def insertAnalysis : List (String × StockAggregate) → AnalysisResult →
    List (String × StockAggregate)
  | [], a => [(a.stock_symbol, updateAggregate emptyAggregate a)]
  | (s, agg) :: rest, a =>
    if s = a.stock_symbol then (s, updateAggregate agg a) :: rest
    else (s, agg) :: insertAnalysis rest a

/-- The grouping loop of `generate_watchlist`: builds `stock_aggregates`
in first-seen symbol order. -/
def buildAggregates (analyses : List AnalysisResult) : List (String × StockAggregate) :=
  analyses.foldl insertAnalysis []

/-- The scan underlying `max(directions, key=directions.get)`: keeps the
current best and replaces it only on a strictly greater count, so the
first key attaining the maximal count wins. -/
def maxByCount : Direction → Nat → List (Direction × Nat) → Direction
  | d, _, [] => d
  | d, c, (d', c') :: rest =>
    if c' > c then maxByCount d' c' rest else maxByCount d c rest

/-- `max(directions, key=directions.get)` over the insertion-ordered tally;
`none` models the `ValueError` on an empty tally (the code guards this). -/
def dominantDirection : List (Direction × Nat) → Option Direction
  | [] => none
  | (d, c) :: rest => some (maxByCount d c rest)

/-- Stable descending insertion by a rational key: the new element goes in
front of the first element whose key is not greater, so earlier elements
win ties — the behaviour of Python's stable `sort(reverse=True)`. -/
def insertDesc (key : α → Rat) (x : α) : List α → List α
  | [] => [x]
  | y :: ys => if key x ≥ key y then x :: y :: ys else y :: insertDesc key x ys

/-- Stable descending sort by a rational key, modelling Python's stable
`sorted(..., reverse=True)` / `list.sort(reverse=True)`. -/
def sortByDesc (key : α → Rat) : List α → List α
  | [] => []
  | x :: xs => insertDesc key x (sortByDesc key xs)

/-- `WatchlistItem(...)` construction: pydantic validates the field
constraints and requires a present `latest_news_datetime`; a violation
raises, which the per-group `try/except` turns into skipping the group. -/
def mkWatchlistItem (stock_symbol : String) (direction : Direction)
    (priority : Priority) (bias_score : Rat) (reason : String)
    (news_count : Nat) (latest : Option Int) (date : String) : Option WatchlistItem :=
  latest.bind fun t =>
    if stock_symbol.length ≤ 20 ∧ 0 ≤ bias_score ∧ bias_score ≤ 5 ∧
        1 ≤ reason.length ∧ reason.length ≤ 200 ∧ 1 ≤ news_count then
      some { stock_symbol := stock_symbol.toUpper
             direction := direction
             priority := priority
             bias_score := bias_score
             reason := reason
             news_count := news_count
             latest_news_datetime := t
             date := date }
    else none

/-- The per-group body of `generate_watchlist`: skip small groups, compute
the average bias score, pick the dominant direction, skip Neutral groups,
derive the priority, skip Low groups, and take the rationale of the head
of the stable descending sort of the group's analyses. -/
def emitGroup (date : String) (symbol : String) (agg : StockAggregate) :
    Option WatchlistItem :=
  let news_count := agg.analyses.length
  if news_count < MIN_NEWS_COUNT_FOR_WATCHLIST then none
  else
    let avg_bias_score := agg.total_bias_score / (news_count : Rat)
    (dominantDirection agg.directions).bind fun dominant =>
      if dominant = Direction.NEUTRAL then none
      else
        let priority := determine_priority avg_bias_score
        if priority = Priority.LOW then none
        else
          ((sortByDesc (fun x => x.bias_score) agg.analyses).head?).bind fun best =>
            mkWatchlistItem symbol dominant priority avg_bias_score best.rationale
              news_count agg.latest_news_datetime date

/-- The surviving `WatchlistItem`s of `generate_watchlist` in the
aggregator's group-iteration (first-seen symbol) order, before sorting. -/
def watchlistCandidates (date : String) (analyses : List AnalysisResult) :
    List WatchlistItem :=
  (buildAggregates analyses).filterMap fun p => emitGroup date p.1 p.2

/-- `WatchlistGeneratorService.generate_watchlist`: group, filter, sort by
bias score descending (stable), truncate to the maximum size. -/
def generate_watchlist (max_watchlist_size : Nat) (date : String)
    (analyses : List AnalysisResult) : List WatchlistItem :=
  (sortByDesc (fun x => x.bias_score) (watchlistCandidates date analyses)).take
    max_watchlist_size

/-- The `metadata` dict of `generate_complete_watchlist`; the bullish and
bearish counts are only present on the full (non-short-circuit) path. -/
structure WatchlistMetadata where
  generated_at : String
  total_news_fetched : Nat
  total_analyzed : Nat
  watchlist_size : Nat
  bullish_count : Option Nat
  bearish_count : Option Nat
deriving DecidableEq

/-- The result envelope of `generate_complete_watchlist`; the bullish and
bearish sub-lists are only present on the full path. -/
structure WatchlistResult where
  watchlist : List WatchlistItem
  bullish_stocks : Option (List WatchlistItem)
  bearish_stocks : Option (List WatchlistItem)
  metadata : WatchlistMetadata
deriving DecidableEq

/-- `WatchlistGeneratorService.generate_complete_watchlist`: short-circuits
with a reduced metadata dict when nothing was fetched or nothing analyzed;
otherwise generates the watchlist and partitions it into bullish/bearish
views.  The fetch result and the adapter behaviours are parameters. -/
def generate_complete_watchlist (date : String) (max_watchlist_size : Nat)
    (fetched : List NewsItem) (extract : NewsItem → Option String)
    (llm : NewsItem → Option LLMPayload) : WatchlistResult :=
  if fetched.isEmpty then
    { watchlist := []
      bullish_stocks := none
      bearish_stocks := none
      metadata := { generated_at := date, total_news_fetched := 0
                    total_analyzed := 0, watchlist_size := 0
                    bullish_count := none, bearish_count := none } }
  else
    let analyses := analyze_all_news extract llm fetched
    if analyses.isEmpty then
      { watchlist := []
        bullish_stocks := none
        bearish_stocks := none
        metadata := { generated_at := date, total_news_fetched := fetched.length
                      total_analyzed := 0, watchlist_size := 0
                      bullish_count := none, bearish_count := none } }
    else
      let watchlist := generate_watchlist max_watchlist_size date analyses
      let bullish_stocks := watchlist.filter fun i => decide (i.direction = Direction.BULLISH)
      let bearish_stocks := watchlist.filter fun i => decide (i.direction = Direction.BEARISH)
      { watchlist := watchlist
        bullish_stocks := some bullish_stocks
        bearish_stocks := some bearish_stocks
        metadata := { generated_at := date, total_news_fetched := fetched.length
                      total_analyzed := analyses.length
                      watchlist_size := watchlist.length
                      bullish_count := some bullish_stocks.length
                      bearish_count := some bearish_stocks.length } }

/-- A raw news dict produced by `ZerodhaScraper.parse_zerodha_feed` (the
fields the dedup loop reads). -/
structure RawNews where
  source : String
  title : String
  content : String
  published_at : Int
  url : String
deriving DecidableEq

/-- The dedup loop of `ZerodhaScraper.fetch_news`: keep an item iff its
title is non-empty and not yet seen; seen titles accumulate. -/
def dedupByTitle (seen : List String) : List RawNews → List RawNews
  | [] => []
  | item :: rest =>
    if item.title ≠ "" ∧ item.title ∉ seen then
      item :: dedupByTitle (item.title :: seen) rest
    else dedupByTitle seen rest

/-- `ZerodhaScraper.fetch_news` after the per-feed parsing: dedup by exact
title, then truncate to `max_items`. -/
def fetch_news_dedup (max_items : Nat) (all_news : List RawNews) : List RawNews :=
  (dedupByTitle [] all_news).take max_items

/-- The first element of a list attaining the maximal key: later elements
replace the current best only on a strictly greater key. -/
def firstMaxBy (key : α → Rat) : List α → Option α
  | [] => none
  | x :: xs =>
    match firstMaxBy key xs with
    | none => some x
    | some y => if key y > key x then some y else some x

theorem mem_insertDesc {key : α → Rat} (x a : α) (l : List α) :
    a ∈ insertDesc key x l ↔ a = x ∨ a ∈ l := by
  induction l with
  | nil => simp [insertDesc]
  | cons y ys ih =>
    by_cases h : key x ≥ key y
    · simp [insertDesc, h, List.mem_cons]
    · simp only [insertDesc, if_neg h, List.mem_cons, ih]
      tauto

theorem mem_sortByDesc {key : α → Rat} (a : α) (l : List α) :
    a ∈ sortByDesc key l ↔ a ∈ l := by
  induction l with
  | nil => simp [sortByDesc]
  | cons x xs ih => simp [sortByDesc, mem_insertDesc, ih]

theorem pairwise_insertDesc {key : α → Rat} (x : α) (l : List α)
    (h : l.Pairwise (fun a b => key b ≤ key a)) :
    (insertDesc key x l).Pairwise (fun a b => key b ≤ key a) := by
  induction l with
  | nil => simp [insertDesc]
  | cons y ys ih =>
    rw [List.pairwise_cons] at h
    obtain ⟨hy, hys⟩ := h
    by_cases hxy : key x ≥ key y
    · rw [insertDesc, if_pos hxy, List.pairwise_cons]
      refine ⟨?_, List.pairwise_cons.mpr ⟨hy, hys⟩⟩
      intro b hb
      rcases List.mem_cons.mp hb with rfl | hb
      · exact hxy
      · exact le_trans (hy b hb) hxy
    · rw [insertDesc, if_neg hxy, List.pairwise_cons]
      refine ⟨?_, ih hys⟩
      intro b hb
      rcases (mem_insertDesc x b ys).mp hb with rfl | hb
      · exact le_of_lt (lt_of_not_ge hxy)
      · exact hy b hb

theorem sortByDesc_sorted {key : α → Rat} (l : List α) :
    (sortByDesc key l).Pairwise (fun a b => key b ≤ key a) := by
  induction l with
  | nil => simp [sortByDesc]
  | cons x xs ih => exact pairwise_insertDesc x _ ih

theorem length_insertDesc {key : α → Rat} (x : α) (l : List α) :
    (insertDesc key x l).length = l.length + 1 := by
  induction l with
  | nil => rfl
  | cons y ys ih =>
    by_cases h : key x ≥ key y
    · simp [insertDesc, h]
    · simp [insertDesc, h, ih]

theorem length_sortByDesc {key : α → Rat} (l : List α) :
    (sortByDesc key l).length = l.length := by
  induction l with
  | nil => rfl
  | cons x xs ih => simp [sortByDesc, length_insertDesc, ih]

theorem filter_insertDesc_key_eq {key : α → Rat} {s : Rat} (x : α) (l : List α)
    (hx : key x = s) :
    (insertDesc key x l).filter (fun a => decide (key a = s)) =
      x :: l.filter (fun a => decide (key a = s)) := by
  induction l with
  | nil => simp [insertDesc, hx]
  | cons y ys ih =>
    by_cases hxy : key x ≥ key y
    · rw [insertDesc, if_pos hxy]
      simp [List.filter_cons, hx]
    · have hy : ¬ key y = s := by
        intro hys
        exact hxy (ge_of_eq (hx.trans hys.symm))
      rw [insertDesc, if_neg hxy]
      simp [List.filter_cons, hy, ih]

theorem filter_insertDesc_key_ne {key : α → Rat} {s : Rat} (x : α) (l : List α)
    (hx : ¬ key x = s) :
    (insertDesc key x l).filter (fun a => decide (key a = s)) =
      l.filter (fun a => decide (key a = s)) := by
  induction l with
  | nil => simp [insertDesc, hx]
  | cons y ys ih =>
    by_cases hxy : key x ≥ key y
    · rw [insertDesc, if_pos hxy]
      simp [List.filter_cons, hx]
    · rw [insertDesc, if_neg hxy]
      simp [List.filter_cons, ih]

theorem sortByDesc_stable {key : α → Rat} (l : List α) (s : Rat) :
    (sortByDesc key l).filter (fun a => decide (key a = s)) =
      l.filter (fun a => decide (key a = s)) := by
  induction l with
  | nil => rfl
  | cons x xs ih =>
    by_cases hx : key x = s
    · rw [sortByDesc, filter_insertDesc_key_eq x _ hx, ih, List.filter_cons,
        if_pos (by simpa using hx)]
    · rw [sortByDesc, filter_insertDesc_key_ne x _ hx, ih, List.filter_cons,
        if_neg (by simpa using hx)]

theorem head?_insertDesc {key : α → Rat} (x : α) (l : List α) :
    (insertDesc key x l).head? =
      some (match l.head? with
            | none => x
            | some y => if key x ≥ key y then x else y) := by
  cases l with
  | nil => rfl
  | cons y ys =>
    by_cases h : key x ≥ key y
    · simp [insertDesc, h]
    · simp [insertDesc, h]

theorem head?_sortByDesc {key : α → Rat} (l : List α) :
    (sortByDesc key l).head? = firstMaxBy key l := by
  induction l with
  | nil => rfl
  | cons x xs ih =>
    rw [sortByDesc, head?_insertDesc, firstMaxBy, ← ih]
    cases hs : (sortByDesc key xs).head? with
    | none => rfl
    | some y =>
      by_cases h : key x ≥ key y
      · simp [h, not_lt_of_ge h]
      · simp [h, lt_of_not_ge h]

theorem maxByCount_of_le (d : Direction) (c : Nat) (l : List (Direction × Nat))
    (h : ∀ p ∈ l, p.2 ≤ c) : maxByCount d c l = d := by
  induction l with
  | nil => rfl
  | cons p rest ih =>
    obtain ⟨d', c'⟩ := p
    have hc' : c' ≤ c := h (d', c') (List.mem_cons_self _ _)
    rw [maxByCount, if_neg (not_lt_of_ge hc')]
    exact ih fun q hq => h q (List.mem_cons_of_mem _ hq)

theorem maxByCount_append (d0 : Direction) (c0 : Nat) (l1 : List (Direction × Nat))
    (d : Direction) (c : Nat) (l2 : List (Direction × Nat))
    (h0 : c0 < c) (h1 : ∀ p ∈ l1, p.2 < c) (h2 : ∀ p ∈ l2, p.2 ≤ c) :
    maxByCount d0 c0 (l1 ++ (d, c) :: l2) = d := by
  induction l1 generalizing d0 c0 with
  | nil =>
    rw [List.nil_append, maxByCount, if_pos h0]
    exact maxByCount_of_le d c l2 h2
  | cons p l1' ih =>
    obtain ⟨d1, c1⟩ := p
    have hc1 : c1 < c := h1 (d1, c1) (List.mem_cons_self _ _)
    have h1' : ∀ p ∈ l1', p.2 < c := fun q hq => h1 q (List.mem_cons_of_mem _ hq)
    rw [List.cons_append, maxByCount]
    by_cases hb : c1 > c0
    · rw [if_pos hb]
      exact ih d1 c1 hc1 h1'
    · rw [if_neg hb]
      exact ih d0 c0 h0 h1'

/-- The dominant direction is the first key of the insertion-ordered tally
attaining the maximal count: every earlier key has a strictly smaller
count, every later key a count no larger. -/
theorem dominantDirection_firstMax (l1 : List (Direction × Nat)) (d : Direction)
    (c : Nat) (l2 : List (Direction × Nat))
    (h1 : ∀ p ∈ l1, p.2 < c) (h2 : ∀ p ∈ l2, p.2 ≤ c) :
    dominantDirection (l1 ++ (d, c) :: l2) = some d := by
  cases l1 with
  | nil =>
    rw [List.nil_append, dominantDirection]
    exact congrArg some (maxByCount_of_le d c l2 h2)
  | cons p l1' =>
    obtain ⟨d0, c0⟩ := p
    have hc0 : c0 < c := h1 (d0, c0) (List.mem_cons_self _ _)
    have h1' : ∀ q ∈ l1', q.2 < c := fun q hq => h1 q (List.mem_cons_of_mem _ hq)
    rw [List.cons_append, dominantDirection]
    exact congrArg some (maxByCount_append d0 c0 l1' d c l2 hc0 h1' h2)

theorem determine_priority_ne_low {b : Rat} (h : determine_priority b ≠ Priority.LOW) :
    BIAS_SCORE_MEDIUM_THRESHOLD ≤ b := by
  unfold determine_priority at h
  by_cases h1 : b ≥ BIAS_SCORE_HIGH_THRESHOLD
  · calc BIAS_SCORE_MEDIUM_THRESHOLD ≤ BIAS_SCORE_HIGH_THRESHOLD := by norm_num [BIAS_SCORE_MEDIUM_THRESHOLD, BIAS_SCORE_HIGH_THRESHOLD]
      _ ≤ b := h1
  · rw [if_neg h1] at h
    by_cases h2 : b ≥ BIAS_SCORE_MEDIUM_THRESHOLD
    · exact h2
    · rw [if_neg h2] at h
      exact absurd rfl h

/-- Everything `emitGroup` guarantees about an emitted item: the direction
is the non-Neutral dominant direction, the bias score is the group
average, the priority is derived from it and is not Low, and the reason is
the rationale of the head of the stable descending sort of the group. -/
theorem emitGroup_spec {date symbol : String} {agg : StockAggregate}
    {item : WatchlistItem} (h : emitGroup date symbol agg = some item) :
    ∃ dominant best,
      dominantDirection agg.directions = some dominant ∧
      dominant ≠ Direction.NEUTRAL ∧
      item.direction = dominant ∧
      item.bias_score = agg.total_bias_score / (agg.analyses.length : Rat) ∧
      item.priority = determine_priority item.bias_score ∧
      item.priority ≠ Priority.LOW ∧
      (sortByDesc (fun x => x.bias_score) agg.analyses).head? = some best ∧
      item.reason = best.rationale ∧
      item.news_count = agg.analyses.length := by
  simp only [emitGroup] at h
  by_cases hcnt : agg.analyses.length < MIN_NEWS_COUNT_FOR_WATCHLIST
  · rw [if_pos hcnt] at h
    exact absurd h (by simp)
  · rw [if_neg hcnt] at h
    rcases Option.bind_eq_some.mp h with ⟨dominant, hdom, h⟩
    by_cases hne : dominant = Direction.NEUTRAL
    · rw [if_pos hne] at h
      exact absurd h (by simp)
    · rw [if_neg hne] at h
      by_cases hlow : determine_priority (agg.total_bias_score / (agg.analyses.length : Rat)) = Priority.LOW
      · rw [if_pos hlow] at h
        exact absurd h (by simp)
      · rw [if_neg hlow] at h
        rcases Option.bind_eq_some.mp h with ⟨best, hbest, h⟩
        refine ⟨dominant, best, hdom, hne, ?_⟩
        simp only [mkWatchlistItem] at h
        rcases Option.bind_eq_some.mp h with ⟨t, hlat, h⟩
        by_cases hcond : symbol.length ≤ 20 ∧
            0 ≤ agg.total_bias_score / (agg.analyses.length : Rat) ∧
            agg.total_bias_score / (agg.analyses.length : Rat) ≤ 5 ∧
            1 ≤ best.rationale.length ∧ best.rationale.length ≤ 200 ∧
            1 ≤ agg.analyses.length
        · rw [if_pos hcond] at h
          injection h with h
          subst h
          exact ⟨rfl, rfl, rfl, hlow, hbest, rfl, rfl⟩
        · rw [if_neg hcond] at h
          exact absurd h (by simp)

/-- Every item returned by `generate_watchlist` was emitted for some
symbol group. -/
theorem mem_generate_watchlist {m : Nat} {date : String}
    {analyses : List AnalysisResult} {item : WatchlistItem}
    (h : item ∈ generate_watchlist m date analyses) :
    ∃ symbol agg, (symbol, agg) ∈ buildAggregates analyses ∧
      emitGroup date symbol agg = some item := by
  unfold generate_watchlist at h
  have h2 := List.take_subset _ _ h
  rw [mem_sortByDesc] at h2
  unfold watchlistCandidates at h2
  rcases List.mem_filterMap.mp h2 with ⟨p, hp, hemit⟩
  exact ⟨p.1, p.2, hp, hemit⟩

/-- Emitted watchlist items never carry a Neutral direction, never carry
Low priority, and their (average) bias score is at least the Medium
threshold 1.5. -/
theorem generate_watchlist_invariants {m : Nat} {date : String}
    {analyses : List AnalysisResult} {item : WatchlistItem}
    (h : item ∈ generate_watchlist m date analyses) :
    item.direction ≠ Direction.NEUTRAL ∧ item.priority ≠ Priority.LOW ∧
      BIAS_SCORE_MEDIUM_THRESHOLD ≤ item.bias_score := by
  obtain ⟨symbol, agg, _, hemit⟩ := mem_generate_watchlist h
  obtain ⟨dominant, best, _, hne, hdir, _, hpri, hlow, _, _, _⟩ := emitGroup_spec hemit
  refine ⟨?_, hlow, ?_⟩
  · rw [hdir]; exact hne
  · exact determine_priority_ne_low (hpri ▸ hlow)

theorem collectAnalyses_fst (llm : NewsItem → Option LLMPayload)
    (batch : List NewsItem) :
    (collectAnalyses llm batch).1 =
      batch.filterMap fun it => analyze_single_item it (llm it) := by
  induction batch with
  | nil => rfl
  | cons item rest ih =>
    rw [collectAnalyses, List.filterMap_cons]
    cases h : analyze_single_item item (llm item) with
    | none => simpa [h] using ih
    | some a => simpa [h] using ih

theorem collectAnalyses_length (llm : NewsItem → Option LLMPayload)
    (batch : List NewsItem) :
    (collectAnalyses llm batch).1.length + (collectAnalyses llm batch).2 =
      batch.length := by
  induction batch with
  | nil => rfl
  | cons item rest ih =>
    rw [collectAnalyses]
    cases h : analyze_single_item item (llm item) with
    | none =>
      simp only [h, List.length_cons]
      omega
    | some a =>
      simp only [h, List.length_cons]
      omega

theorem direction_partition_length (l : List WatchlistItem)
    (h : ∀ i ∈ l, i.direction ≠ Direction.NEUTRAL) :
    (l.filter fun i => decide (i.direction = Direction.BULLISH)).length +
      (l.filter fun i => decide (i.direction = Direction.BEARISH)).length =
      l.length := by
  induction l with
  | nil => rfl
  | cons x xs ih =>
    have hx := h x (List.mem_cons_self _ _)
    have hxs := ih fun i hi => h i (List.mem_cons_of_mem _ hi)
    cases hdir : x.direction with
    | BULLISH =>
      simp [List.filter_cons, hdir]
      omega
    | BEARISH =>
      simp [List.filter_cons, hdir]
      omega
    | NEUTRAL => exact absurd hdir hx

theorem dedupByTitle_sublist (seen : List String) (l : List RawNews) :
    List.Sublist (dedupByTitle seen l) l := by
  induction l generalizing seen with
  | nil => simp [dedupByTitle]
  | cons item rest ih =>
    rw [dedupByTitle]
    by_cases hc : item.title ≠ "" ∧ item.title ∉ seen
    · rw [if_pos hc]
      exact List.Sublist.cons₂ _ (ih _)
    · rw [if_neg hc]
      exact List.Sublist.cons _ (ih _)

/-- Membership in the dedup output: exactly the items that occur at some
position whose title is non-empty, unseen, and not the title of any
earlier item. -/
theorem mem_dedupByTitle (x : RawNews) : ∀ (seen : List String) (l : List RawNews),
    x ∈ dedupByTitle seen l ↔
      ∃ l1 l2, l = l1 ++ x :: l2 ∧ x.title ∉ seen ∧ x.title ≠ "" ∧
        ∀ y ∈ l1, y.title ≠ x.title := by
  intro seen l
  induction l generalizing seen with
  | nil =>
    simp only [dedupByTitle, List.not_mem_nil, false_iff]
    rintro ⟨l1, l2, habs, -⟩
    exact List.cons_ne_nil x l2 (List.append_eq_nil.mp habs.symm).2
  | cons item rest ih =>
    rw [dedupByTitle]
    by_cases hc : item.title ≠ "" ∧ item.title ∉ seen
    · rw [if_pos hc, List.mem_cons]
      constructor
      · rintro (rfl | hx)
        · exact ⟨[], rest, rfl, hc.2, hc.1, by simp⟩
        · obtain ⟨l1, l2, rfl, hseen, hne, hfirst⟩ := (ih _).mp hx
          have hxi : x.title ≠ item.title := fun habs =>
            hseen (habs ▸ List.mem_cons_self _ _)
          refine ⟨item :: l1, l2, rfl, fun habs => hseen (List.mem_cons_of_mem _ habs),
            hne, ?_⟩
          intro y hy
          rcases List.mem_cons.mp hy with rfl | hy
          · exact fun habs => hxi habs.symm
          · exact hfirst y hy
      · rintro ⟨l1, l2, heq, hseen, hne, hfirst⟩
        cases l1 with
        | nil =>
          simp only [List.nil_append, List.cons.injEq] at heq
          exact Or.inl heq.1.symm
        | cons z l1' =>
          simp only [List.cons_append, List.cons.injEq] at heq
          obtain ⟨rfl, rfl⟩ := heq
          refine Or.inr ((ih _).mpr ⟨l1', l2, rfl, ?_, hne, ?_⟩)
          · intro habs
            rcases List.mem_cons.mp habs with habs | habs
            · exact hfirst item (List.mem_cons_self _ _) habs.symm
            · exact hseen habs
          · exact fun y hy => hfirst y (List.mem_cons_of_mem _ hy)
    · rw [if_neg hc]
      rw [ih seen]
      constructor
      · rintro ⟨l1, l2, rfl, hseen, hne, hfirst⟩
        have hxi : item.title ≠ x.title := by
          intro habs
          rcases not_and_or.mp hc with hc1 | hc1
          · exact hne (habs ▸ (not_not.mp hc1))
          · exact hseen (habs ▸ (not_not.mp hc1))
        exact ⟨item :: l1, l2, rfl, hseen, hne, fun y hy => by
          rcases List.mem_cons.mp hy with rfl | hy
          · exact hxi
          · exact hfirst y hy⟩
      · rintro ⟨l1, l2, heq, hseen, hne, hfirst⟩
        cases l1 with
        | nil =>
          simp only [List.nil_append, List.cons.injEq] at heq
          obtain ⟨rfl, rfl⟩ := heq
          exact absurd ⟨hne, hseen⟩ hc
        | cons z l1' =>
          simp only [List.cons_append, List.cons.injEq] at heq
          obtain ⟨rfl, rfl⟩ := heq
          exact ⟨l1', l2, rfl, hseen, hne, fun y hy => hfirst y (List.mem_cons_of_mem _ hy)⟩

theorem dedupByTitle_pairwise (seen : List String) (l : List RawNews) :
    (dedupByTitle seen l).Pairwise fun a b => a.title ≠ b.title := by
  induction l generalizing seen with
  | nil => simp [dedupByTitle]
  | cons item rest ih =>
    rw [dedupByTitle]
    by_cases hc : item.title ≠ "" ∧ item.title ∉ seen
    · rw [if_pos hc, List.pairwise_cons]
      refine ⟨?_, ih _⟩
      intro b hb
      obtain ⟨l1, l2, rfl, hseen, hne, hfirst⟩ := (mem_dedupByTitle b _ _).mp hb
      exact fun habs => hseen (habs ▸ List.mem_cons_self _ _)
    · rw [if_neg hc]
      exact ih _

theorem validate_spec {p : LLMPayload} {vr : LLMAnalysisResponse}
    (h : LLMAnalysisResponse.validate p = some vr) :
    vr.event_type = validate_event_type p.event_type ∧
    vr.direction = validate_direction p.direction ∧
    vr.impact_strength = p.impact_strength ∧
    vr.confidence = p.confidence ∧
    vr.rationale = p.rationale ∧
    1 ≤ p.impact_strength ∧ p.impact_strength ≤ 5 ∧
    0 ≤ p.confidence ∧ p.confidence ≤ 1 := by
  unfold LLMAnalysisResponse.validate at h
  by_cases hc : 1 ≤ p.impact_strength ∧ p.impact_strength ≤ 5 ∧
      0 ≤ p.confidence ∧ p.confidence ≤ 1
  · rw [if_pos hc] at h
    injection h with h
    subst h
    exact ⟨rfl, rfl, rfl, rfl, rfl, hc.1, hc.2.1, hc.2.2.1, hc.2.2.2⟩
  · rw [if_neg hc] at h
    exact absurd h (by simp)

theorem mkAnalysisResult_spec {news_id sym event_type : String} {dir : Direction}
    {imp : Int} {conf : Rat} {rationale : String} {bias : Rat} {pub : Int}
    {a : AnalysisResult}
    (h : mkAnalysisResult news_id sym event_type dir imp conf rationale bias pub =
      some a) :
    a.news_id = news_id ∧ a.stock_symbol = sym.toUpper ∧
    a.event_type = event_type ∧ a.direction = dir ∧
    a.impact_strength = imp ∧ a.confidence = conf ∧
    a.rationale = rationale ∧ a.bias_score = bias ∧
    a.news_published_at = pub := by
  unfold mkAnalysisResult at h
  by_cases hc : sym.length ≤ 20 ∧ 1 ≤ imp ∧ imp ≤ 5 ∧ 0 ≤ conf ∧ conf ≤ 1 ∧
      1 ≤ rationale.length ∧ rationale.length ≤ 200 ∧ 0 ≤ bias ∧ bias ≤ 5
  · rw [if_pos hc] at h
    injection h with h
    subst h
    exact ⟨rfl, rfl, rfl, rfl, rfl, rfl, rfl, rfl, rfl⟩
  · rw [if_neg hc] at h
    exact absurd h (by simp)

/-- C1: every `AnalysisResult` produced by the analyzer stores
`bias_score = impact_strength * confidence`, with `impact_strength` in
[1,5] and `confidence` in [0,1]; the score is computed from those two
fields of the validated payload, never taken independently. -/
theorem C1_bias_score_is_product (item : NewsItem) (payload : LLMPayload)
    (a : AnalysisResult) (h : analyze_single_item item (some payload) = some a) :
    a.bias_score = (a.impact_strength : Rat) * a.confidence ∧
      1 ≤ a.impact_strength ∧ a.impact_strength ≤ 5 ∧
      0 ≤ a.confidence ∧ a.confidence ≤ 1 ∧
      a.impact_strength = payload.impact_strength ∧
      a.confidence = payload.confidence := by
  unfold analyze_single_item at h
  rcases Option.bind_eq_some.mp h with ⟨sym, hsym, h⟩
  rcases Option.bind_eq_some.mp h with ⟨p, hp, h⟩
  injection hp with hp
  subst hp
  rcases Option.bind_eq_some.mp h with ⟨vr, hvr, h⟩
  obtain ⟨-, -, himp, hconf, -, h1, h2, h3, h4⟩ := validate_spec hvr
  by_cases hev : vr.event_type ∈ validEventTypes
  · rw [if_pos hev] at h
    rcases Option.bind_eq_some.mp h with ⟨dir, hdir, h⟩
    obtain ⟨-, -, -, -, haimp, haconf, -, habias, -⟩ := mkAnalysisResult_spec h
    refine ⟨?_, ?_, ?_, ?_, ?_, ?_, ?_⟩
    · rw [habias, haimp, haconf]
    · rw [haimp, himp]; exact h1
    · rw [haimp, himp]; exact h2
    · rw [haconf, hconf]; exact h3
    · rw [haconf, hconf]; exact h4
    · rw [haimp, himp]
    · rw [haconf, hconf]
  · rw [if_neg hev] at h
    exact absurd h (by simp)

/-- A concrete news item used by the claim witnesses. -/
def wItem : NewsItem :=
  { id := "news-1", source := "ZERODHA", title := "TCS wins large deal"
    content := "TCS wins large deal.", published_at := 10
    stock_symbol := some "TCS", url := "https://example.com/1" }

/-- A concrete well-formed adapter payload used by the claim witnesses. -/
def wPayload : LLMPayload :=
  { event_type := "Order", direction := "bullish", impact_strength := 4
    confidence := mkRat 1 2, rationale := "large deal win" }

theorem C1_bias_score_is_product_witness :
    ∃ a, analyze_single_item wItem (some wPayload) = some a ∧
      a.bias_score = (a.impact_strength : Rat) * a.confidence := by
  refine ⟨{ news_id := "news-1", stock_symbol := "TCS", event_type := "Order"
            direction := Direction.BULLISH, impact_strength := 4
            confidence := mkRat 1 2, rationale := "large deal win"
            bias_score := 2, news_published_at := 10 }, ?ha, ?_⟩
  case ha => with_unfolding_all decide
  · exact (C1_bias_score_is_product wItem wPayload _ (by with_unfolding_all decide)).1

/-- C2: no watchlist item returned by `generate_watchlist` has a Neutral
dominant direction or a Low derived priority (equivalently, an average
bias score below 1.5), and a group failing either condition is skipped
entirely. -/
theorem C2_no_neutral_no_low :
    (∀ (m : Nat) (date : String) (analyses : List AnalysisResult)
        (item : WatchlistItem), item ∈ generate_watchlist m date analyses →
      item.direction ≠ Direction.NEUTRAL ∧ item.priority ≠ Priority.LOW ∧
        ¬ item.bias_score < BIAS_SCORE_MEDIUM_THRESHOLD) ∧
    (∀ (date symbol : String) (agg : StockAggregate),
      dominantDirection agg.directions = some Direction.NEUTRAL ∨
        determine_priority (agg.total_bias_score / (agg.analyses.length : Rat)) =
          Priority.LOW →
      emitGroup date symbol agg = none) := by
  constructor
  · intro m date analyses item h
    obtain ⟨h1, h2, h3⟩ := generate_watchlist_invariants h
    exact ⟨h1, h2, not_lt_of_ge h3⟩
  · intro date symbol agg h
    by_cases hcnt : agg.analyses.length < MIN_NEWS_COUNT_FOR_WATCHLIST
    · simp [emitGroup, hcnt]
    · cases hdom : dominantDirection agg.directions with
      | none => simp [emitGroup, hcnt, hdom]
      | some dominant =>
        rcases h with hneu | hlow
        · rw [hdom] at hneu
          injection hneu with hneu
          simp [emitGroup, hcnt, hdom, hneu]
        · by_cases hne : dominant = Direction.NEUTRAL
          · simp [emitGroup, hcnt, hdom, hne]
          · simp [emitGroup, hcnt, hdom, hne, hlow]

/-- A concrete analysis used by the C2 witness. -/
def relAnalysis : AnalysisResult :=
  { news_id := "news-2", stock_symbol := "RELIANCE", event_type := "Earnings"
    direction := Direction.BULLISH, impact_strength := 3, confidence := 1
    rationale := "strong results", bias_score := 3, news_published_at := 5 }

theorem C2_no_neutral_no_low_witness :
    ({ stock_symbol := "RELIANCE", direction := Direction.BULLISH
       priority := Priority.HIGH, bias_score := 3, reason := "strong results"
       news_count := 1, latest_news_datetime := 5
       date := "2026-01-01" } : WatchlistItem).direction ≠ Direction.NEUTRAL :=
  (C2_no_neutral_no_low.1 10 "2026-01-01" [relAnalysis] _
    (by with_unfolding_all decide)).1

/-- C3: the watchlist is the stable descending sort of the surviving
group entries truncated to the maximum size: its length is at most the
configured maximum (default 10), it is sorted by bias score descending,
and entries with equal bias score keep the aggregator's group-iteration
order. -/
theorem C3_ranker_sorted_bounded_stable (m : Nat) (date : String)
    (analyses : List AnalysisResult) :
    generate_watchlist m date analyses =
      (sortByDesc (fun x => x.bias_score) (watchlistCandidates date analyses)).take m ∧
    (generate_watchlist m date analyses).length ≤ m ∧
    (generate_watchlist m date analyses).Pairwise
      (fun a b => b.bias_score ≤ a.bias_score) ∧
    MAX_WATCHLIST_SIZE = 10 ∧
    ∀ s : Rat,
      (sortByDesc (fun x => x.bias_score) (watchlistCandidates date analyses)).filter
          (fun x => decide (x.bias_score = s)) =
        (watchlistCandidates date analyses).filter fun x => decide (x.bias_score = s) := by
  refine ⟨rfl, ?_, ?_, rfl, fun s => sortByDesc_stable _ s⟩
  · unfold generate_watchlist
    rw [List.length_take]
    exact min_le_left _ _
  · exact List.Pairwise.sublist (List.take_sublist _ _) (sortByDesc_sorted _)

/-- Three analyses for the `TCS` scenario: bias scores 4, 3, 2 with
directions Bullish, Bullish, Bearish. -/
def aTCS1 : AnalysisResult :=
  { news_id := "t1", stock_symbol := "TCS", event_type := "Order"
    direction := Direction.BULLISH, impact_strength := 4, confidence := 1
    rationale := "big order win", bias_score := 4, news_published_at := 10 }

/-- Second `TCS` analysis (bias 3, Bullish). -/
def aTCS2 : AnalysisResult :=
  { news_id := "t2", stock_symbol := "TCS", event_type := "Earnings"
    direction := Direction.BULLISH, impact_strength := 3, confidence := 1
    rationale := "good earnings", bias_score := 3, news_published_at := 20 }

/-- Third `TCS` analysis (bias 2, Bearish). -/
def aTCS3 : AnalysisResult :=
  { news_id := "t3", stock_symbol := "TCS", event_type := "Regulatory"
    direction := Direction.BEARISH, impact_strength := 2, confidence := 1
    rationale := "sector headwind", bias_score := 2, news_published_at := 5 }

/-- The `TCS` group aggregate built from the three scenario analyses. -/
def aggTCS : StockAggregate :=
  { analyses := [aTCS1, aTCS2, aTCS3], total_bias_score := 9
    directions := [(Direction.BULLISH, 2), (Direction.BEARISH, 1)]
    latest_news_datetime := some 20 }

/-- C4: the emitted entry's reason is the rationale of the contributing
analysis with the highest individual bias score (ties to the first in the
group's sequence), and the `TCS` scenario with bias scores 4, 3, 2 and
directions Bullish, Bullish, Bearish yields dominant direction Bullish,
average bias score 3, priority High and the rationale of the 4.0 item. -/
theorem C4_best_rationale :
    (∀ (date symbol : String) (agg : StockAggregate) (item : WatchlistItem),
        emitGroup date symbol agg = some item →
        ∃ best, firstMaxBy (fun x => x.bias_score) agg.analyses = some best ∧
          item.reason = best.rationale) ∧
    generate_watchlist 10 "2026-01-01" [aTCS1, aTCS2, aTCS3] =
      [{ stock_symbol := "TCS", direction := Direction.BULLISH
         priority := Priority.HIGH, bias_score := 3, reason := "big order win"
         news_count := 3, latest_news_datetime := 20, date := "2026-01-01" }] := by
  constructor
  · intro date symbol agg item h
    obtain ⟨dom, best, -, -, -, -, -, -, hbest, hreason, -⟩ := emitGroup_spec h
    exact ⟨best, (head?_sortByDesc _).symm.trans hbest, hreason⟩
  · with_unfolding_all decide

theorem C4_best_rationale_witness :
    ∃ best, firstMaxBy (fun x => x.bias_score) aggTCS.analyses = some best ∧
      ({ stock_symbol := "TCS", direction := Direction.BULLISH
         priority := Priority.HIGH, bias_score := 3, reason := "big order win"
         news_count := 3, latest_news_datetime := 20
         date := "2026-01-01" } : WatchlistItem).reason = best.rationale :=
  C4_best_rationale.1 "2026-01-01" "TCS" aggTCS _ (by with_unfolding_all decide)

/-- Two analyses for one symbol with equal bias scores and opposite
directions, the Bearish one first in the analysis sequence. -/
def infyBear : AnalysisResult :=
  { news_id := "i1", stock_symbol := "INFY", event_type := "Other"
    direction := Direction.BEARISH, impact_strength := 3, confidence := 1
    rationale := "weak guidance", bias_score := 3, news_published_at := 1 }

/-- The Bullish counterpart, second in the analysis sequence. -/
def infyBull : AnalysisResult :=
  { news_id := "i2", stock_symbol := "INFY", event_type := "Other"
    direction := Direction.BULLISH, impact_strength := 3, confidence := 1
    rationale := "new contract", bias_score := 3, news_published_at := 2 }

/-- C5 counterexample: a group whose Bullish and Bearish counts are equal
and maximal but whose emitted direction is Bearish (the first direction
seen), not Bullish as the claimed enumeration-order tie-break requires. -/
theorem C5_counterexample :
    (([infyBear, infyBull].filter fun a =>
        decide (a.direction = Direction.BULLISH)).length =
      ([infyBear, infyBull].filter fun a =>
        decide (a.direction = Direction.BEARISH)).length) ∧
    ((generate_watchlist 10 "2026-01-01" [infyBear, infyBull]).map fun i =>
        i.direction) = [Direction.BEARISH] ∧
    Direction.BEARISH ≠ Direction.BULLISH := by
  with_unfolding_all decide

/-- C5 amended: on a count tie the dominant direction is the first key of
the group's insertion-ordered direction tally attaining the maximal
count — first-seen order, not the enumeration order Bullish, Bearish,
Neutral. -/
theorem C5_amended_tiebreak (l1 : List (Direction × Nat)) (d : Direction)
    (c : Nat) (l2 : List (Direction × Nat))
    (h1 : ∀ p ∈ l1, p.2 < c) (h2 : ∀ p ∈ l2, p.2 ≤ c) :
    dominantDirection (l1 ++ (d, c) :: l2) = some d :=
  dominantDirection_firstMax l1 d c l2 h1 h2

theorem C5_amended_tiebreak_witness :
    dominantDirection [(Direction.BEARISH, 1), (Direction.BULLISH, 1)] =
      some Direction.BEARISH :=
  C5_amended_tiebreak [] Direction.BEARISH 1 [(Direction.BULLISH, 1)]
    (by simp) (by decide)

/-- C6 counterexample: on a zero-item fetch the short-circuit metadata dict
contains no bullish/bearish counts at all, so they are not zero. -/
theorem C6_counterexample :
    (generate_complete_watchlist "2026-01-01" 10 [] (fun _ => none)
        (fun _ => none)).metadata.bullish_count ≠ some 0 ∧
    (generate_complete_watchlist "2026-01-01" 10 [] (fun _ => none)
        (fun _ => none)).metadata.bearish_count ≠ some 0 := by
  with_unfolding_all decide

/-- C6 amended: on a zero-item fetch the pipeline short-circuits without
invoking the analyzer or aggregator (the result does not depend on the
adapter behaviours) and returns an empty watchlist with total fetched,
total analyzed and watchlist size all zero; the bullish and bearish
counts are absent from the short-circuit metadata, not zero. -/
theorem C6_amended_empty_fetch (date : String) (m : Nat)
    (extract : NewsItem → Option String) (llm : NewsItem → Option LLMPayload) :
    (generate_complete_watchlist date m [] extract llm).watchlist = [] ∧
    (generate_complete_watchlist date m [] extract llm).metadata.total_news_fetched = 0 ∧
    (generate_complete_watchlist date m [] extract llm).metadata.total_analyzed = 0 ∧
    (generate_complete_watchlist date m [] extract llm).metadata.watchlist_size = 0 ∧
    (generate_complete_watchlist date m [] extract llm).metadata.bullish_count = none ∧
    (generate_complete_watchlist date m [] extract llm).metadata.bearish_count = none ∧
    ∀ (extract2 : NewsItem → Option String) (llm2 : NewsItem → Option LLMPayload),
      generate_complete_watchlist date m [] extract llm =
        generate_complete_watchlist date m [] extract2 llm2 :=
  ⟨rfl, rfl, rfl, rfl, rfl, rfl, fun _ _ => rfl⟩

/-- C7: in the analysis collection loop a failed item (no result from the
analyzer) is only dropped and counted; every successful item's result is
collected, successes plus errors account for the whole batch, and
`analyze_all_news` is exactly this total collection over the items with
symbols. -/
theorem C7_partial_failure_isolation (llm : NewsItem → Option LLMPayload)
    (batch : List NewsItem) :
    (collectAnalyses llm batch).1 =
        (batch.filterMap fun it => analyze_single_item it (llm it)) ∧
    (collectAnalyses llm batch).1.length + (collectAnalyses llm batch).2 =
        batch.length ∧
    (∀ it ∈ batch, ∀ a, analyze_single_item it (llm it) = some a →
        a ∈ (collectAnalyses llm batch).1) ∧
    ∀ (extract : NewsItem → Option String), batch.isEmpty = false →
      (extract_symbols_parallel extract batch).isEmpty = false →
      analyze_all_news extract llm batch =
        (collectAnalyses llm (extract_symbols_parallel extract batch)).1 := by
  have hfst := collectAnalyses_fst llm batch
  refine ⟨hfst, collectAnalyses_length llm batch, ?_, ?_⟩
  · intro it hit a ha
    rw [hfst]
    exact List.mem_filterMap.mpr ⟨it, hit, ha⟩
  · intro extract h1 h2
    unfold analyze_all_news
    simp [h1, h2]

/-- Five news items with symbols already attached, for the C7 witness. -/
def nIt (n : Nat) : NewsItem :=
  { id := "batch-" ++ toString n, source := "ZERODHA"
    title := "title " ++ toString n, content := "content " ++ toString n
    published_at := (n : Int), stock_symbol := some "AAA"
    url := "https://example.com/b" }

/-- An adapter behaviour that fails exactly on the third batch item. -/
def llm5 : NewsItem → Option LLMPayload := fun it =>
  if it.id = "batch-3" then none
  else some { event_type := "Order", direction := "BULLISH", impact_strength := 2
              confidence := 1, rationale := "ok news" }

/-- The analysis the batch loop collects for the first batch item. -/
def aOK1 : AnalysisResult :=
  { news_id := "batch-1", stock_symbol := "AAA", event_type := "Order"
    direction := Direction.BULLISH, impact_strength := 2, confidence := 1
    rationale := "ok news", bias_score := 2, news_published_at := 1 }

theorem C7_partial_failure_isolation_witness :
    (collectAnalyses llm5 [nIt 1, nIt 2, nIt 3, nIt 4, nIt 5]).1.length = 4 ∧
    (collectAnalyses llm5 [nIt 1, nIt 2, nIt 3, nIt 4, nIt 5]).2 = 1 ∧
    aOK1 ∈ (collectAnalyses llm5 [nIt 1, nIt 2, nIt 3, nIt 4, nIt 5]).1 := by
  refine ⟨?_, ?_, ?_⟩
  · with_unfolding_all decide
  · with_unfolding_all decide
  · exact (C7_partial_failure_isolation llm5 [nIt 1, nIt 2, nIt 3, nIt 4, nIt 5]).2.2.1
      (nIt 1) (by with_unfolding_all decide) aOK1 (by with_unfolding_all decide)

/-- C8: a payload whose numeric fields are in range is never dropped for an
unrecognized enum-like field: an unrecognized event category is replaced
by Other and an unrecognized direction (after upper-casing) by NEUTRAL. -/
theorem C8_soft_invalid_enums (p : LLMPayload)
    (h : 1 ≤ p.impact_strength ∧ p.impact_strength ≤ 5 ∧
      0 ≤ p.confidence ∧ p.confidence ≤ 1) :
    ∃ vr, LLMAnalysisResponse.validate p = some vr ∧
      vr.event_type =
        (if p.event_type ∈ validEventTypes then p.event_type else "Other") ∧
      vr.direction =
        (if p.direction.toUpper ∈ validDirections then p.direction.toUpper
         else "NEUTRAL") ∧
      (p.event_type ∉ validEventTypes → vr.event_type = "Other") ∧
      (p.direction.toUpper ∉ validDirections → vr.direction = "NEUTRAL") := by
  refine ⟨{ event_type := validate_event_type p.event_type
            direction := validate_direction p.direction
            impact_strength := p.impact_strength
            confidence := p.confidence
            rationale := p.rationale }, ?_, ?_, ?_, ?_, ?_⟩
  · unfold LLMAnalysisResponse.validate
    rw [if_pos h]
  · rfl
  · rfl
  · intro hev
    simp [validate_event_type, hev]
  · intro hdir
    simp [validate_direction, hdir]

/-- A payload with unrecognized enum-like fields but in-range numbers. -/
def oddPayload : LLMPayload :=
  { event_type := "Rumor", direction := "sideways", impact_strength := 3
    confidence := 1, rationale := "unclear chatter" }

theorem C8_soft_invalid_enums_witness :
    ∃ vr, LLMAnalysisResponse.validate oddPayload = some vr ∧
      vr.event_type =
        (if oddPayload.event_type ∈ validEventTypes then oddPayload.event_type
         else "Other") ∧
      vr.direction =
        (if oddPayload.direction.toUpper ∈ validDirections then
          oddPayload.direction.toUpper
         else "NEUTRAL") ∧
      (oddPayload.event_type ∉ validEventTypes → vr.event_type = "Other") ∧
      (oddPayload.direction.toUpper ∉ validDirections → vr.direction = "NEUTRAL") :=
  C8_soft_invalid_enums oddPayload (by with_unfolding_all decide)

/-- C9: for dedup-stage inputs (whose titles the upstream parser has
already sanitized: trimmed and non-empty), the deduplicated output is no
longer than the input, preserves first-occurrence order (it is a sublist),
contains no two items with the same trimmed title, and keeps an item iff
no earlier item has a byte-identical (equivalently, trimmed-identical)
title — with no case or punctuation normalization. -/
theorem C9_dedup_by_trimmed_title (m : Nat) (input : List RawNews)
    (h : ∀ x ∈ input, x.title.trim = x.title ∧ x.title ≠ "") :
    (fetch_news_dedup m input).length ≤ input.length ∧
    List.Sublist (fetch_news_dedup m input) input ∧
    (fetch_news_dedup m input).Pairwise
      (fun a b => a.title.trim ≠ b.title.trim) ∧
    ∀ x, x ∈ dedupByTitle [] input ↔
      ∃ l1 l2, input = l1 ++ x :: l2 ∧
        ∀ y ∈ l1, y.title.trim ≠ x.title.trim := by
  have hsub : List.Sublist (fetch_news_dedup m input) input :=
    (List.take_sublist _ _).trans (dedupByTitle_sublist [] input)
  refine ⟨hsub.length_le, hsub, ?_, ?_⟩
  · have hpw : (fetch_news_dedup m input).Pairwise fun a b => a.title ≠ b.title :=
      List.Pairwise.sublist (List.take_sublist _ _) (dedupByTitle_pairwise [] input)
    refine hpw.imp_of_mem ?_
    intro a b ha hb hne
    rw [(h a (hsub.subset ha)).1, (h b (hsub.subset hb)).1]
    exact hne
  · intro x
    rw [mem_dedupByTitle]
    constructor
    · rintro ⟨l1, l2, rfl, -, -, hfirst⟩
      refine ⟨l1, l2, rfl, ?_⟩
      intro y hy
      have hyin : y ∈ l1 ++ x :: l2 := List.mem_append_left _ hy
      have hxin : x ∈ l1 ++ x :: l2 :=
        List.mem_append_right _ (List.mem_cons_self _ _)
      rw [(h y hyin).1, (h x hxin).1]
      exact hfirst y hy
    · rintro ⟨l1, l2, heq, hfirst⟩
      subst heq
      have hxin : x ∈ l1 ++ x :: l2 :=
        List.mem_append_right _ (List.mem_cons_self _ _)
      refine ⟨l1, l2, rfl, List.not_mem_nil _, (h x hxin).2, ?_⟩
      intro y hy habs
      have hyin : y ∈ l1 ++ x :: l2 := List.mem_append_left _ hy
      exact hfirst y hy (by rw [(h y hyin).1, (h x hxin).1]; exact habs)

/-- A raw feed batch with one duplicated title, for the C9 witness. -/
def rawBatch : List RawNews :=
  [{ source := "ZERODHA", title := "Alpha Corp wins deal", content := "a"
     published_at := 1, url := "https://example.com/a" },
   { source := "ZERODHA", title := "Beta Ltd reports loss", content := "b"
     published_at := 2, url := "https://example.com/b" },
   { source := "ZERODHA", title := "Alpha Corp wins deal", content := "c"
     published_at := 3, url := "https://example.com/c" }]

theorem C9_dedup_by_trimmed_title_witness :
    (fetch_news_dedup 50 rawBatch).length ≤ rawBatch.length :=
  (C9_dedup_by_trimmed_title 50 rawBatch (by with_unfolding_all decide)).1

/-- C10: the bullish and bearish sub-lists are exactly the direction
filters of the primary watchlist, their counts sum to the watchlist size
(absent counts reading as zero on the short-circuit paths), and every
watchlist entry appears in exactly one of the two sub-lists. -/
theorem C10_bullish_bearish_partition (date : String) (m : Nat)
    (fetched : List NewsItem) (extract : NewsItem → Option String)
    (llm : NewsItem → Option LLMPayload) :
    (generate_complete_watchlist date m fetched extract llm).metadata.bullish_count.getD 0 +
      (generate_complete_watchlist date m fetched extract llm).metadata.bearish_count.getD 0 =
      (generate_complete_watchlist date m fetched extract llm).metadata.watchlist_size ∧
    (generate_complete_watchlist date m fetched extract llm).bullish_stocks.getD [] =
      ((generate_complete_watchlist date m fetched extract llm).watchlist.filter
        fun i => decide (i.direction = Direction.BULLISH)) ∧
    (generate_complete_watchlist date m fetched extract llm).bearish_stocks.getD [] =
      ((generate_complete_watchlist date m fetched extract llm).watchlist.filter
        fun i => decide (i.direction = Direction.BEARISH)) ∧
    ∀ i ∈ (generate_complete_watchlist date m fetched extract llm).watchlist,
      (i ∈ (generate_complete_watchlist date m fetched extract llm).bullish_stocks.getD [] ∧
        i ∉ (generate_complete_watchlist date m fetched extract llm).bearish_stocks.getD []) ∨
      (i ∈ (generate_complete_watchlist date m fetched extract llm).bearish_stocks.getD [] ∧
        i ∉ (generate_complete_watchlist date m fetched extract llm).bullish_stocks.getD []) := by
  unfold generate_complete_watchlist
  by_cases h1 : fetched.isEmpty
  · simp [h1]
  · rw [Bool.not_eq_true] at h1
    simp only [h1, Bool.false_eq_true, if_false]
    by_cases h2 : (analyze_all_news extract llm fetched).isEmpty
    · simp [h2]
    · rw [Bool.not_eq_true] at h2
      simp only [h2, Bool.false_eq_true, if_false, Option.getD_some]
      have hdir : ∀ i ∈ generate_watchlist m date (analyze_all_news extract llm fetched),
          i.direction ≠ Direction.NEUTRAL :=
        fun i hi => (generate_watchlist_invariants hi).1
      refine ⟨direction_partition_length _ hdir, trivial, trivial, ?_⟩
      intro i hi
      cases hd : i.direction with
      | BULLISH =>
        refine Or.inl ⟨List.mem_filter.mpr ⟨hi, by simp [hd]⟩, ?_⟩
        intro habs
        have := (List.mem_filter.mp habs).2
        simp [hd] at this
      | BEARISH =>
        refine Or.inr ⟨List.mem_filter.mpr ⟨hi, by simp [hd]⟩, ?_⟩
        intro habs
        have := (List.mem_filter.mp habs).2
        simp [hd] at this
      | NEUTRAL => exact absurd hd (hdir i hi)

/-- The single watchlist entry of the C10 witness run. -/
def itemW : WatchlistItem :=
  { stock_symbol := "TCS", direction := Direction.BULLISH
    priority := Priority.MEDIUM, bias_score := 2, reason := "large deal win"
    news_count := 1, latest_news_datetime := 10, date := "2026-01-01" }

theorem C10_bullish_bearish_partition_witness :
    (itemW ∈ (generate_complete_watchlist "2026-01-01" 10 [wItem] (fun _ => none)
        (fun _ => some wPayload)).bullish_stocks.getD [] ∧
      itemW ∉ (generate_complete_watchlist "2026-01-01" 10 [wItem] (fun _ => none)
        (fun _ => some wPayload)).bearish_stocks.getD []) ∨
    (itemW ∈ (generate_complete_watchlist "2026-01-01" 10 [wItem] (fun _ => none)
        (fun _ => some wPayload)).bearish_stocks.getD [] ∧
      itemW ∉ (generate_complete_watchlist "2026-01-01" 10 [wItem] (fun _ => none)
        (fun _ => some wPayload)).bullish_stocks.getD []) :=
  (C10_bullish_bearish_partition "2026-01-01" 10 [wItem] (fun _ => none)
    (fun _ => some wPayload)).2.2.2 itemW (by with_unfolding_all decide)

end Premarket
